import Mathlib

/-!
Verification of the pursuit-evasion game engine in `src/intruder_escape.py`
(class `GridMaze`).  The Python code is shallowly embedded: grid cells are
integer pairs, the obstacle grid is a Boolean predicate together with its
size, Python dicts are modelled as association lists with insertion-order
semantics, floats (the robot speed) are modelled as the exact rational
values of binary64 doubles with addition rounding to nearest-even, and
the A* main loop is given explicit fuel (the loop closes a fresh cell per
iteration, so `gridSize^2 + 2` iterations always suffice; exhausted fuel
yields `none`).  Wall-clock gating (`pygame.time.get_ticks`) is outside
the embedding: `update_game` below models one timer-fired tick body.
-/

namespace IntruderEscape

/-- A grid cell `(row, col)`, as in the Python tuples.  Out-of-bounds and
negative coordinates are representable, as they are in the source. -/
abbrev Cell := Int × Int

/-- `manhattan_distance` from `GridMaze.find_path` (line 182):
`abs(a[0]-b[0]) + abs(a[1]-b[1])`. -/
def manhattan (a b : Cell) : Nat :=
  (a.1 - b.1).natAbs + (a.2 - b.2).natAbs

/-- Two cells are 4-adjacent when their Manhattan distance is 1. -/
def adjacentB (a b : Cell) : Bool :=
  manhattan a b == 1

/-- The obstacle grid: `self.GRID_SIZE` together with the contents of
`self.grid` (`blocked p = true` models `grid[p.1][p.2] == 1`; the source
only ever reads the grid after a bounds check, so the values of `blocked`
outside the bounds are irrelevant). -/
structure Maze where
  gridSize : Nat
  blocked : Cell → Bool

/-- Bounds check `0 <= r < GRID_SIZE and 0 <= c < GRID_SIZE` (lines 210-211,
436, 468-469). -/
def Maze.inBounds (m : Maze) (p : Cell) : Bool :=
  decide (0 ≤ p.1) && decide (p.1 < (m.gridSize : Int)) &&
  decide (0 ≤ p.2) && decide (p.2 < (m.gridSize : Int))

/-- A cell that is in bounds and not an obstacle. -/
def Maze.freeCell (m : Maze) (p : Cell) : Bool :=
  m.inBounds p && !(m.blocked p)

/-- Build a maze from an obstacle list (used for concrete test layouts). -/
def mkMaze (n : Nat) (obstacles : List Cell) : Maze :=
  ⟨n, fun p => obstacles.contains p⟩

/-- Association-list lookup, modelling Python dict reads
(`g_score[x]`, `came_from[x]`, membership tests).  Updates are modelled
by consing, so the most recent binding wins. -/
def alookup {α : Type} : List (Cell × α) → Cell → Option α
  | [], _ => none
  | (k, v) :: rest, x => if x = k then some v else alookup rest x

/-- The mutable state of the A* loop in `find_path` (lines 185-189):
open frontier, closed set, best-known `g` and predecessor map.
`f_score` is not carried: the source reads `f_score[x]` only immediately
after writing it (lines 191 and 223/226), so the pushed priority is the
freshly computed value. -/
structure AState where
  openSet : List (Nat × Cell)
  closedSet : List Cell
  gScore : List (Cell × Nat)
  cameFrom : List (Cell × Cell)

/-- Ordering of heap entries: Python compares the tuples
`(f, (row, col))` lexicographically. -/
def entryLe (a b : Nat × Cell) : Bool :=
  decide (a.1 < b.1) ||
  (decide (a.1 = b.1) &&
    (decide (a.2.1 < b.2.1) ||
      (decide (a.2.1 = b.2.1) && decide (a.2.2 ≤ b.2.2))))

/-- Selection pass: return the minimum entry and the remaining entries. -/
def popMinGo (e : Nat × Cell) : List (Nat × Cell) → (Nat × Cell) × List (Nat × Cell)
  | [] => (e, [])
  | x :: xs =>
    if entryLe e x then ((popMinGo e xs).1, x :: (popMinGo e xs).2)
    else ((popMinGo x xs).1, e :: (popMinGo x xs).2)

/-- `heapq.heappop` (line 194): remove the least `(f, cell)` entry. -/
def popMin : List (Nat × Cell) → Option ((Nat × Cell) × List (Nat × Cell))
  | [] => none
  | x :: xs => some (popMinGo x xs)

/-- The relaxation test `neighbor not in g_score or
tentative_g_score < g_score[neighbor]` (line 220). -/
def gBetter (t : Nat) : Option Nat → Bool
  | none => true
  | some g => decide (t < g)

/-- The update block of lines 221-226: record predecessor and `g`, and
push `(f, neighbor)` unless the neighbour is already on the open
frontier (in which case its stale priority is kept, exactly as in the
source). -/
def pushState (goal current : Cell) (st : AState) (nb : Cell) (t : Nat) : AState :=
  { openSet :=
      if st.openSet.any (fun e => decide (e.2 = nb)) then st.openSet
      else (t + manhattan nb goal, nb) :: st.openSet,
    closedSet := st.closedSet,
    gScore := (nb, t) :: st.gScore,
    cameFrom := (nb, current) :: st.cameFrom }

/-- Processing of one neighbour cell `nb` of `current` (lines 210-226):
skip out-of-bounds, obstacle and closed neighbours; otherwise relax
`g_score` via `tentative_g_score = g_score[current] + 1` (the lookup of
`g_score[current]` always succeeds in the source; `getD` supplies an
irrelevant default). -/
def relaxCell (m : Maze) (goal current nb : Cell) (st : AState) : AState :=
  if m.freeCell nb = false then st
  else if nb ∈ st.closedSet then st
  else if gBetter ((alookup st.gScore current).getD 0 + 1) (alookup st.gScore nb) then
    pushState goal current st nb ((alookup st.gScore current).getD 0 + 1)
  else st

/-- The body of the `for dx, dy in ...` loop of `find_path`
(lines 207-226): the neighbour is `(current[0] + dx, current[1] + dy)`. -/
def relaxNeighbor (m : Maze) (goal current : Cell) (st : AState) (d : Cell) : AState :=
  relaxCell m goal current (current.1 + d.1, current.2 + d.2) st

/-- Neighbour offsets `[(0, 1), (1, 0), (0, -1), (-1, 0)]` (line 207). -/
def dirs : List Cell := [(0, 1), (1, 0), (0, -1), (-1, 0)]

/-- Path reconstruction (lines 197-203): walk `came_from` from the goal,
then append the start and reverse.  The accumulator already holds the
cells in final order, so no explicit reversal is needed.  Fuel bounds the
walk; under the loop invariant the predecessor chain strictly decreases
`g`, so any fuel larger than `g(goal)` reproduces the source faithfully. -/
def rebuild (cf : List (Cell × Cell)) (start : Cell) : Nat → Cell → List Cell → List Cell
  | 0, _, acc => start :: acc
  | fuel + 1, current, acc =>
    match alookup cf current with
    | some parent => rebuild cf start fuel parent (current :: acc)
    | none => start :: acc

/-- The `while open_set:` loop of `find_path` (lines 193-226). -/
def loop (m : Maze) (start goal : Cell) : Nat → AState → Option (List Cell)
  | 0, _ => none
  | fuel + 1, st =>
    match popMin st.openSet with
    | none => none
    | some (e, rest) =>
      if e.2 = goal then
        some (rebuild st.cameFrom start st.gScore.length e.2 [])
      else
        loop m start goal fuel
          (dirs.foldl (relaxNeighbor m goal e.2)
            { st with openSet := rest, closedSet := e.2 :: st.closedSet })

/-- `GridMaze.find_path(start, goal)` (lines 181-228): A* search with
Manhattan heuristic over the 4-connected free cells. -/
def find_path (m : Maze) (start goal : Cell) : Option (List Cell) :=
  loop m start goal (m.gridSize * m.gridSize + 2)
    { openSet := [(manhattan start goal, start)], closedSet := [],
      gScore := [(start, 0)], cameFrom := [] }

/-- Last element of `a :: l`. -/
def lastOf : Cell → List Cell → Cell
  | a, [] => a
  | _, c :: rest => lastOf c rest

/-- `stepsOk m prev l`: each cell of `l` is in bounds and free, and
consecutive cells (starting from `prev`) are 4-adjacent. -/
def stepsOk (m : Maze) : Cell → List Cell → Bool
  | _, [] => true
  | prev, c :: rest => adjacentB prev c && m.freeCell c && stepsOk m c rest

/-- A path as `find_path` promises it: it begins at `start`, ends at
`goal`, consecutive cells are 4-adjacent, and every cell after the first
is in bounds and obstacle-free.  (The start cell itself is not
constrained, matching the source, which never validates it.) -/
def isRelaxedPath (m : Maze) (s t : Cell) (p : List Cell) : Bool :=
  match p with
  | [] => false
  | c :: rest => decide (c = s) && decide (lastOf c rest = t) && stepsOk m c rest

/-! ## Game state and the tick/score/input operations -/

/-- `self.game_status` (one of the strings `"setup"`, `"running"`,
`"gameover"`). -/
inductive Status
  | setup
  | running
  | gameover
deriving DecidableEq

/-- Round-to-nearest-even of a rational to an integer (the IEEE 754
default rounding). -/
def rne (q : ℚ) : ℤ :=
  if (1 : ℚ) / 2 < q - ⌊q⌋ then ⌊q⌋ + 1
  else if q - ⌊q⌋ < 1 / 2 then ⌊q⌋
  else if ⌊q⌋ % 2 = 0 then ⌊q⌋ else ⌊q⌋ + 1

/-- Rounding of a rational to the nearest binary64 double (53-bit
significand, round-to-nearest-even), as the exact rational value of
that double.  The exponent handling covers every `q ≥ 1` (far below
overflow), which includes every speed value the program can reach: the
speed starts at `1.0` and only grows. -/
def floatRound (q : ℚ) : ℚ :=
  ((rne (q * 2 ^ 52 / 2 ^ Nat.log2 ⌊q⌋.toNat) : ℚ) * 2 ^ Nat.log2 ⌊q⌋.toNat) / 2 ^ 52

/-- IEEE binary64 addition: the exact sum, rounded once. -/
def floatAdd (a b : ℚ) : ℚ := floatRound (a + b)

/-- `self.ROBOT_SPEED_INITIAL = 1.0` (line 25): exactly representable
in binary64. -/
def ROBOT_SPEED_INITIAL : ℚ := 1

/-- `self.ROBOT_SPEED_INCREASE = 0.1` (line 26): the float literal
`0.1` denotes the binary64 double nearest 1/10, whose exact value is
`3602879701896397 / 2^55`; the constant is embedded as that exact
rational. -/
def ROBOT_SPEED_INCREASE : ℚ := 3602879701896397 / 2 ^ 55

/-- `self.ROBOT_SPEED_INCREASE_STEPS = 100` (line 27). -/
def ROBOT_SPEED_INCREASE_STEPS : Nat := 100

/-- The game-relevant fields of the `GridMaze` object, plus the two
persisted records (`high_score.json`, `leaderboard.json`).  Persistence
is modelled as always succeeding (the source silently swallows I/O
errors, which does not change the values written). -/
structure GameState where
  maze : Maze
  robots : List (Cell × Nat)
  intruder : Option Cell
  status : Status
  gameRunning : Bool
  steps : Nat
  highScore : Nat
  storedHighScore : Nat
  storedLeaderboard : List Int
  leaderboard : List Int
  robotSpeed : ℚ

/-- Python dict insertion `d[k] = v`: an existing key keeps its position
and gets the new value, a new key is appended.  Models writes to
`new_robots` (lines 242, 248). -/
def dictInsert (d : List (Cell × Nat)) (k : Cell) (v : Nat) : List (Cell × Nat) :=
  if d.any (fun kv => decide (kv.1 = k)) then
    d.map (fun kv => if kv.1 = k then (k, v) else kv)
  else d ++ [(k, v)]

/-- The next position a robot at `p` computes from the pre-tick snapshot
(lines 238-248): the second cell of its path to the intruder when the
path has length at least 2, otherwise its current cell. -/
def nextPos (m : Maze) (ipos p : Cell) : Cell :=
  match find_path m p ipos with
  | some (_ :: next :: _) => next
  | _ => p

/-- Whether the robot at `p` captures the intruder this tick: its path
has length at least 2 and the second cell is the intruder's cell
(line 244). -/
def capturesB (m : Maze) (ipos p : Cell) : Bool :=
  match find_path m p ipos with
  | some (_ :: next :: _) => decide (next = ipos)
  | _ => false

/-- The `for (robot_row, robot_col), number in self.robots.items():` loop
of `update_game` (lines 237-248), building `new_robots` in iteration
order; `none` signals that `game_over()` fired and the loop returned
early (discarding `new_robots`). -/
def runRobots (m : Maze) (ipos : Cell) (acc : List (Cell × Nat)) :
    List (Cell × Nat) → Option (List (Cell × Nat))
  | [] => some acc
  | (p, num) :: rest =>
    match find_path m p ipos with
    | some (_ :: next :: _) =>
      if next = ipos then none
      else runRobots m ipos (dictInsert acc next num) rest
    | _ => runRobots m ipos (dictInsert acc p num) rest

/-- `GridMaze.update_high_score` (lines 103-106) together with
`save_high_score`: the stored record is rewritten exactly when
`steps > high_score`. -/
def update_high_score (s : GameState) : GameState :=
  if s.highScore < s.steps then
    { s with highScore := s.steps, storedHighScore := s.steps }
  else s

/-- `GridMaze.update_leaderboard` (lines 124-130) on the stored scores:
append the current step count, sort descending, keep the top 5.
Python's `scores.sort(reverse=True)` is modelled by `insertionSort` with
`· ≥ ·` (for integer scores the two agree). -/
def update_leaderboard (stored : List Int) (steps : Nat) : List Int :=
  (List.insertionSort (· ≥ ·) (stored ++ [(steps : Int)])).take 5

/-- `GridMaze.game_over` (lines 253-257): stop the game, switch the
status, update the high score, and rewrite the leaderboard record. -/
def game_over (s : GameState) : GameState :=
  let s1 := { s with gameRunning := false, status := Status.gameover }
  let s2 := update_high_score s1
  let scores := update_leaderboard s2.storedLeaderboard s2.steps
  { s2 with storedLeaderboard := scores, leaderboard := scores }

/-- One timer-fired tick of `GridMaze.update_game` (lines 230-251): when
the game is running, recompute every robot from the pre-tick snapshot;
on capture, `self.robots` is left untouched and `game_over` runs,
otherwise the freshly built dict replaces the robot set.  (The source
would raise if `intruder_pos` were `None` while running; that state is
unreachable and modelled as a no-op.) -/
def update_game (s : GameState) : GameState :=
  if s.gameRunning = false then s
  else
    match s.intruder with
    | none => s
    | some ipos =>
      match runRobots s.maze ipos [] s.robots with
      | none => game_over s
      | some newRobots => { s with robots := newRobots }

/-- The snapshot-then-apply description of a capture-free tick: map every
robot to its `nextPos` (a function of the pre-tick maze, intruder and
robot position only) and build the position-keyed dict from the images. -/
def snapshotTick (m : Maze) (ipos : Cell) (robots : List (Cell × Nat)) : List (Cell × Nat) :=
  (robots.map (fun r => (nextPos m ipos r.1, r.2))).foldl
    (fun d kv => dictInsert d kv.1 kv.2) []

/-- The step/speed progression on an accepted player move
(lines 473-475): increment `steps`; when `steps % 100 == 0` (and
`steps > 0`) execute `self.robot_speed += self.ROBOT_SPEED_INCREASE`,
a binary64 addition (exact sum rounded to nearest-even). -/
def progressStep (p : Nat × ℚ) : Nat × ℚ :=
  let steps := p.1 + 1
  if 0 < steps ∧ steps % ROBOT_SPEED_INCREASE_STEPS = 0 then
    (steps, floatAdd p.2 ROBOT_SPEED_INCREASE)
  else (steps, p.2)

/-- Arrow-key directions (lines 455-466). -/
inductive Dir
  | up
  | down
  | left
  | right
deriving DecidableEq

/-- The row/column deltas of the four arrow keys. -/
def dirDelta : Dir → Int × Int
  | Dir.up => (-1, 0)
  | Dir.down => (1, 0)
  | Dir.left => (0, -1)
  | Dir.right => (0, 1)

/-- The arrow-key handler while the game is running (lines 450-475):
compute the target cell; if it is in bounds and not an obstacle, move
the intruder there and advance the step/speed progression; otherwise do
nothing.  (When the game is running, the earlier game-over and SPACE
branches of the event handler do not fire.) -/
def tryMove (s : GameState) (d : Dir) : GameState :=
  if s.gameRunning = false then s
  else
    match s.intruder with
    | none => s
    | some pos =>
      let target : Cell := (pos.1 + (dirDelta d).1, pos.2 + (dirDelta d).2)
      if s.maze.freeCell target = true then
        let p := progressStep (s.steps, s.robotSpeed)
        { s with intruder := some target, steps := p.1, robotSpeed := p.2 }
      else s

/-- Whether a clicked cell may receive the intruder (line 436-437):
in bounds, not an obstacle, and not occupied by a robot. -/
def placeAllowed (s : GameState) (c : Cell) : Bool :=
  s.maze.freeCell c && !(s.robots.any (fun r => decide (r.1 = c)))

/-- The grid-click intruder-placement handler (lines 429-438), at cell
granularity: the click is honoured exactly when the game is not running
and the target cell is free and robot-free; otherwise it is silently
ignored. -/
def placeIntruderClick (s : GameState) (c : Cell) : GameState :=
  if s.gameRunning = true then s
  else if placeAllowed s c = true then { s with intruder := some c }
  else s

/-! ## Concrete layouts and states used as test inputs -/

/-- A 5×5 layout on which the source's A* returns a non-shortest path
(the improved `g` of an already-open cell never refreshes its stale heap
priority). -/
def mazeA : Maze := mkMaze 5 [(0, 3), (0, 4), (1, 0), (2, 3)]

/-- The 8-cell (7-move) path `find_path mazeA (3,0) (2,4)` returns. -/
def longPathA : List Cell :=
  [(3, 0), (2, 0), (2, 1), (2, 2), (1, 2), (1, 3), (1, 4), (2, 4)]

/-- A 6-cell (5-move) obstacle-free path from `(3,0)` to `(2,4)` in
`mazeA`, witnessing that the returned path is not shortest. -/
def shortPathA : List Cell :=
  [(3, 0), (3, 1), (3, 2), (3, 3), (3, 4), (2, 4)]

/-- A 2×2 layout whose cell `(0,0)` is an obstacle. -/
def mazeC : Maze := mkMaze 2 [(0, 0)]

/-- A running 3×3 game with a corridor through `(1,1)`: both robots'
paths to the intruder pass through `(0,1)`, so their computed next cells
coincide without capturing. -/
def stateB : GameState :=
  { maze := mkMaze 3 [(1, 0), (1, 2)], robots := [((0, 0), 1), ((0, 2), 2)],
    intruder := some (2, 1), status := Status.running, gameRunning := true,
    steps := 0, highScore := 0, storedHighScore := 0,
    storedLeaderboard := [], leaderboard := [], robotSpeed := 1 }

/-- A running 2×2 game in which the single robot captures the intruder
on the next tick. -/
def stateW : GameState :=
  { maze := mkMaze 2 [], robots := [((0, 1), 1)],
    intruder := some (0, 0), status := Status.running, gameRunning := true,
    steps := 7, highScore := 5, storedHighScore := 5,
    storedLeaderboard := [3], leaderboard := [3], robotSpeed := 1 }

/-- A running 2×2 game whose intruder sits next to the obstacle `(0,1)`. -/
def stateM : GameState :=
  { maze := mkMaze 2 [(0, 1)], robots := [],
    intruder := some (0, 0), status := Status.running, gameRunning := true,
    steps := 4, highScore := 9, storedHighScore := 9,
    storedLeaderboard := [9], leaderboard := [9], robotSpeed := 1 }

/-- A game in the game-over state (as `game_over` leaves it:
`game_running` false, status `"gameover"`). -/
def stateG : GameState :=
  { maze := mkMaze 2 [], robots := [],
    intruder := some (0, 0), status := Status.gameover, gameRunning := false,
    steps := 3, highScore := 3, storedHighScore := 3,
    storedLeaderboard := [3], leaderboard := [3], robotSpeed := 1 }

/-- A running 2×2 game with a robot at `(0,0)` and the intruder adjacent
at `(0,1)`: a LEFT move legally steps the intruder onto the robot's cell
(the move handler checks bounds and obstacles only, lines 468-470),
leaving robot and intruder co-located. -/
def stateK : GameState :=
  { maze := mkMaze 2 [], robots := [((0, 0), 1)],
    intruder := some (0, 1), status := Status.running, gameRunning := true,
    steps := 0, highScore := 0, storedHighScore := 0,
    storedLeaderboard := [], leaderboard := [], robotSpeed := 1 }

/-! ## Basic lemmas -/

theorem manhattan_self (a : Cell) : manhattan a a = 0 := by
  simp [manhattan]

theorem alookup_cons {α : Type} (k : Cell) (v : α) (l : List (Cell × α)) (x : Cell) :
    alookup ((k, v) :: l) x = if x = k then some v else alookup l x := rfl

theorem alookup_cons_isSome {α : Type} (k : Cell) (v : α) (l : List (Cell × α)) (x : Cell)
    (h : (alookup l x).isSome = true) : (alookup ((k, v) :: l) x).isSome = true := by
  rw [alookup_cons]
  split
  · rfl
  · exact h

theorem lastOf_append (l1 l2 : List Cell) (a : Cell) :
    lastOf a (l1 ++ l2) = lastOf (lastOf a l1) l2 := by
  induction l1 generalizing a with
  | nil => rfl
  | cons c rest ih => simpa [lastOf] using ih c

theorem stepsOk_append (m : Maze) (l1 l2 : List Cell) (a : Cell) :
    stepsOk m a (l1 ++ l2) = (stepsOk m a l1 && stepsOk m (lastOf a l1) l2) := by
  induction l1 generalizing a with
  | nil => simp [stepsOk, lastOf]
  | cons c rest ih => simp [stepsOk, lastOf, ih c, Bool.and_assoc]

theorem stepsOk_last_free (m : Maze) :
    ∀ (l : List Cell) (a c : Cell), stepsOk m a (c :: l) = true →
      m.freeCell (lastOf a (c :: l)) = true := by
  intro l
  induction l with
  | nil =>
    intro a c h
    have h1 : (adjacentB a c && m.freeCell c && stepsOk m c []) = true := h
    simp only [stepsOk, Bool.and_true, Bool.and_eq_true] at h1
    exact h1.2
  | cons c2 rest ih =>
    intro a c h
    have h1 : (adjacentB a c && m.freeCell c && stepsOk m c (c2 :: rest)) = true := h
    simp only [Bool.and_eq_true] at h1
    exact ih c c2 h1.2

theorem popMinGo_mem (e : Nat × Cell) (l : List (Nat × Cell)) :
    ((popMinGo e l).1 = e ∨ (popMinGo e l).1 ∈ l) ∧
    (∀ x ∈ (popMinGo e l).2, x = e ∨ x ∈ l) := by
  induction l generalizing e with
  | nil => exact ⟨Or.inl rfl, by simp [popMinGo]⟩
  | cons y ys ih =>
    simp only [popMinGo]
    split
    · refine ⟨?_, ?_⟩
      · rcases (ih e).1 with h | h
        · exact Or.inl h
        · exact Or.inr (List.mem_cons_of_mem _ h)
      · intro x hx
        rcases List.mem_cons.mp hx with rfl | hx
        · exact Or.inr (List.mem_cons_self _ _)
        · rcases (ih e).2 x hx with h | h
          · exact Or.inl h
          · exact Or.inr (List.mem_cons_of_mem _ h)
    · refine ⟨?_, ?_⟩
      · rcases (ih y).1 with h | h
        · right
          rw [h]
          exact List.mem_cons_self _ _
        · exact Or.inr (List.mem_cons_of_mem _ h)
      · intro x hx
        rcases List.mem_cons.mp hx with rfl | hx
        · exact Or.inl rfl
        · rcases (ih y).2 x hx with h | h
          · right
            rw [h]
            exact List.mem_cons_self _ _
          · exact Or.inr (List.mem_cons_of_mem _ h)

theorem popMin_mem {l rest : List (Nat × Cell)} {e : Nat × Cell}
    (h : popMin l = some (e, rest)) : e ∈ l ∧ ∀ x ∈ rest, x ∈ l := by
  cases l with
  | nil => simp [popMin] at h
  | cons y ys =>
    simp only [popMin, Option.some.injEq] at h
    constructor
    · have h1 := (popMinGo_mem y ys).1
      rw [h] at h1
      rcases h1 with h1 | h1
      · rw [show e = y from h1]
        exact List.mem_cons_self _ _
      · exact List.mem_cons_of_mem _ h1
    · intro x hx
      have h2 := (popMinGo_mem y ys).2 x (by rw [h]; exact hx)
      rcases h2 with h2 | h2
      · rw [h2]
        exact List.mem_cons_self _ _
      · exact List.mem_cons_of_mem _ h2

/-! ## Soundness invariant of the A* loop

Every entry of `came_from` records a 4-adjacent, in-bounds, obstacle-free
cell whose best-known `g` strictly exceeds its parent's, every discovered
cell other than the start has a predecessor, and `g` values are bounded
by the size of the `g_score` list.  Nothing here depends on the open
frontier's ordering, so the stale-priority behaviour of the source is
irrelevant to soundness (it only costs optimality — see claim C1). -/

structure Inv (m : Maze) (s : Cell) (st : AState) : Prop where
  g_start : alookup st.gScore s = some 0
  cf_prop : ∀ x p, alookup st.cameFrom x = some p →
    manhattan p x = 1 ∧ m.freeCell x = true ∧
    ∃ gx gp, alookup st.gScore x = some gx ∧ alookup st.gScore p = some gp ∧ gp < gx
  g_cf : ∀ x gx, alookup st.gScore x = some gx →
    x = s ∨ (alookup st.cameFrom x).isSome = true
  open_g : ∀ e ∈ st.openSet, (alookup st.gScore e.2).isSome = true
  g_bound : ∀ x gx, alookup st.gScore x = some gx → gx < st.gScore.length

theorem relax_preserves (m : Maze) (goal s current nb : Cell) (st : AState)
    (hadj : manhattan current nb = 1)
    (hg : (alookup st.gScore current).isSome = true)
    (hinv : Inv m s st) :
    Inv m s (relaxCell m goal current nb st) ∧
    (alookup (relaxCell m goal current nb st).gScore current).isSome = true := by
  obtain ⟨gc, hgc⟩ := Option.isSome_iff_exists.mp hg
  have hne : current ≠ nb := by
    intro h
    rw [← h, manhattan_self] at hadj
    exact absurd hadj (by decide)
  have hnesymm : ¬(current = nb) := hne
  unfold relaxCell
  rw [hgc]
  simp only [Option.getD_some]
  split
  · exact ⟨hinv, hg⟩
  · rename_i hfree0
    have hfree : m.freeCell nb = true := by
      revert hfree0
      cases m.freeCell nb <;> simp
    split
    · exact ⟨hinv, hg⟩
    · split
      · rename_i hclosed hbet
        -- the no-start fact: relaxing the start cell is impossible
        have hs : ¬(s = nb) := by
          intro h
          rw [← h, hinv.g_start] at hbet
          simp [gBetter] at hbet
        constructor
        · constructor
          · -- g_start
            show alookup ((nb, gc + 1) :: st.gScore) s = some 0
            rw [alookup_cons, if_neg hs]
            exact hinv.g_start
          · -- cf_prop
            intro x p hx
            replace hx : (if x = nb then some current else alookup st.cameFrom x) = some p := hx
            by_cases hxnb : x = nb
            · rw [if_pos hxnb] at hx
              obtain rfl : current = p := by simpa using hx
              subst hxnb
              refine ⟨hadj, hfree, gc + 1, gc, ?_, ?_, by omega⟩
              · show alookup ((x, gc + 1) :: st.gScore) x = some (gc + 1)
                rw [alookup_cons, if_pos rfl]
              · show alookup ((x, gc + 1) :: st.gScore) current = some gc
                rw [alookup_cons, if_neg hnesymm]
                exact hgc
            · rw [if_neg hxnb] at hx
              obtain ⟨ha, hf, gx, gp, hgx, hgp, hlt⟩ := hinv.cf_prop x p hx
              refine ⟨ha, hf, gx, ?_⟩
              by_cases hpnb : p = nb
              · subst hpnb
                rw [hgp] at hbet
                simp only [gBetter, decide_eq_true_eq] at hbet
                refine ⟨gc + 1, ?_, ?_, by omega⟩
                · show alookup ((p, gc + 1) :: st.gScore) x = some gx
                  rw [alookup_cons, if_neg hxnb]
                  exact hgx
                · show alookup ((p, gc + 1) :: st.gScore) p = some (gc + 1)
                  rw [alookup_cons, if_pos rfl]
              · refine ⟨gp, ?_, ?_, hlt⟩
                · show alookup ((nb, gc + 1) :: st.gScore) x = some gx
                  rw [alookup_cons, if_neg hxnb]
                  exact hgx
                · show alookup ((nb, gc + 1) :: st.gScore) p = some gp
                  rw [alookup_cons, if_neg hpnb]
                  exact hgp
          · -- g_cf
            intro x gx hx
            replace hx : (if x = nb then some (gc + 1) else alookup st.gScore x) = some gx := hx
            by_cases hxnb : x = nb
            · right
              show (if x = nb then some current else alookup st.cameFrom x).isSome = true
              rw [if_pos hxnb]
              rfl
            · rw [if_neg hxnb] at hx
              rcases hinv.g_cf x gx hx with h | h
              · exact Or.inl h
              · right
                show (if x = nb then some current else alookup st.cameFrom x).isSome = true
                rw [if_neg hxnb]
                exact h
          · -- open_g
            intro e he
            have mono : ∀ y, (alookup st.gScore y).isSome = true →
                (alookup ((nb, gc + 1) :: st.gScore) y).isSome = true := by
              intro y hy
              exact alookup_cons_isSome _ _ _ _ hy
            simp only [pushState] at he
            split at he
            · exact mono e.2 (hinv.open_g e he)
            · rcases List.mem_cons.mp he with rfl | he
              · show (alookup ((nb, gc + 1) :: st.gScore) nb).isSome = true
                rw [alookup_cons, if_pos rfl]
                rfl
              · exact mono e.2 (hinv.open_g e he)
          · -- g_bound
            intro x gx hx
            replace hx : (if x = nb then some (gc + 1) else alookup st.gScore x) = some gx := hx
            show gx < ((nb, gc + 1) :: st.gScore).length
            rw [List.length_cons]
            by_cases hxnb : x = nb
            · rw [if_pos hxnb] at hx
              obtain rfl : gc + 1 = gx := by simpa using hx
              have := hinv.g_bound current gc hgc
              omega
            · rw [if_neg hxnb] at hx
              have := hinv.g_bound x gx hx
              omega
        · show (alookup ((nb, gc + 1) :: st.gScore) current).isSome = true
          rw [alookup_cons, if_neg hnesymm]
          exact hg
      · exact ⟨hinv, hg⟩

theorem foldl_relax_preserves (m : Maze) (goal s current : Cell) (st : AState)
    (hg : (alookup st.gScore current).isSome = true) (hinv : Inv m s st) :
    Inv m s (dirs.foldl (relaxNeighbor m goal current) st) := by
  have adj : ∀ d : Cell, d ∈ dirs →
      manhattan current (current.1 + d.1, current.2 + d.2) = 1 := by
    intro d hd
    simp only [dirs, List.mem_cons, List.not_mem_nil, or_false] at hd
    rcases hd with rfl | rfl | rfl | rfl <;> (simp only [manhattan]; omega)
  simp only [dirs, List.foldl_cons, List.foldl_nil]
  simp only [relaxNeighbor]
  obtain ⟨hi1, hg1⟩ := relax_preserves m goal s current _ st (adj (0, 1) (by simp [dirs])) hg hinv
  obtain ⟨hi2, hg2⟩ := relax_preserves m goal s current _ _ (adj (1, 0) (by simp [dirs])) hg1 hi1
  obtain ⟨hi3, hg3⟩ := relax_preserves m goal s current _ _ (adj (0, -1) (by simp [dirs])) hg2 hi2
  exact (relax_preserves m goal s current _ _ (adj (-1, 0) (by simp [dirs])) hg3 hi3).1

theorem rebuild_spec (m : Maze) (s : Cell) (g : List (Cell × Nat)) (cf : List (Cell × Cell))
    (H1 : ∀ x p, alookup cf x = some p →
      manhattan p x = 1 ∧ m.freeCell x = true ∧
      ∃ gx gp, alookup g x = some gx ∧ alookup g p = some gp ∧ gp < gx)
    (H2 : ∀ x gx, alookup g x = some gx → x = s ∨ (alookup cf x).isSome = true) :
    ∀ gcur : Nat, ∀ current : Cell, alookup g current = some gcur →
      ∀ fuel : Nat, gcur < fuel → ∀ acc : List Cell,
      ∃ tl, rebuild cf s fuel current acc = s :: (tl ++ acc) ∧
        lastOf s tl = current ∧ stepsOk m s tl = true := by
  intro gcur
  induction gcur using Nat.strong_induction_on with
  | _ gcur ih =>
    intro current hcur fuel hfuel acc
    cases fuel with
    | zero => omega
    | succ n =>
      simp only [rebuild]
      cases hcf : alookup cf current with
      | none =>
        have hcs : current = s := by
          rcases H2 current gcur hcur with h | h
          · exact h
          · rw [hcf] at h
            simp at h
        subst hcs
        exact ⟨[], rfl, rfl, rfl⟩
      | some parent =>
        obtain ⟨hadj, hfree, gx, gp, hgx, hgp, hlt⟩ := H1 current parent hcf
        obtain rfl : gx = gcur := by
          rw [hcur] at hgx
          exact (Option.some_inj.mp hgx).symm
        obtain ⟨tl, heq, hlast, hsteps⟩ :=
          ih gp hlt parent hgp n (by omega) (current :: acc)
        refine ⟨tl ++ [current], ?_, ?_, ?_⟩
        · show rebuild cf s n parent (current :: acc) = s :: (tl ++ [current] ++ acc)
          rw [heq]
          simp
        · rw [lastOf_append, hlast]
          rfl
        · rw [stepsOk_append, hsteps, hlast]
          simp only [stepsOk, Bool.and_true, Bool.true_and]
          simp [adjacentB, hadj, hfree]

theorem loop_sound (m : Maze) (s goal : Cell) :
    ∀ fuel st p, Inv m s st → loop m s goal fuel st = some p →
      isRelaxedPath m s goal p = true := by
  intro fuel
  induction fuel with
  | zero =>
    intro st p _ h
    simp [loop] at h
  | succ n ih =>
    intro st p hinv h
    simp only [loop] at h
    cases hpop : popMin st.openSet with
    | none =>
      rw [hpop] at h
      simp at h
    | some er =>
      obtain ⟨e, rest⟩ := er
      rw [hpop] at h
      obtain ⟨hmem, hrest⟩ := popMin_mem hpop
      replace h :
          (if e.2 = goal then some (rebuild st.cameFrom s st.gScore.length e.2 [])
           else loop m s goal n
             (dirs.foldl (relaxNeighbor m goal e.2)
               { st with openSet := rest, closedSet := e.2 :: st.closedSet })) = some p := h
      by_cases hgoal : e.2 = goal
      · rw [if_pos hgoal] at h
        obtain rfl : rebuild st.cameFrom s st.gScore.length e.2 [] = p := by
          simpa using h
        obtain ⟨gg, hgg⟩ := Option.isSome_iff_exists.mp (hinv.open_g e hmem)
        obtain ⟨tl, heq, hlast, hsteps⟩ :=
          rebuild_spec m s st.gScore st.cameFrom hinv.cf_prop hinv.g_cf
            gg e.2 hgg st.gScore.length (hinv.g_bound e.2 gg hgg) []
        rw [heq]
        simp [isRelaxedPath, hsteps, hlast, hgoal]
      · rw [if_neg hgoal] at h
        have hinv1 : Inv m s { st with openSet := rest, closedSet := e.2 :: st.closedSet } :=
          { g_start := hinv.g_start, cf_prop := hinv.cf_prop, g_cf := hinv.g_cf,
            open_g := fun x hx => hinv.open_g x (hrest x hx),
            g_bound := hinv.g_bound }
        exact ih _ p
          (foldl_relax_preserves m goal s e.2
            { st with openSet := rest, closedSet := e.2 :: st.closedSet }
            (hinv.open_g e hmem) hinv1) h

/-- Any path `find_path` returns is genuine: it starts at `start`, ends
at `goal`, consecutive cells are 4-adjacent, and every cell after the
first is in bounds and obstacle-free. -/
theorem find_path_sound (m : Maze) (s t : Cell) (p : List Cell)
    (h : find_path m s t = some p) : isRelaxedPath m s t p = true := by
  refine loop_sound m s t (m.gridSize * m.gridSize + 2) _ p ?_ h
  constructor
  · simp [alookup]
  · intro x q hx
    simp [alookup] at hx
  · intro x gx hx
    simp only [alookup] at hx
    split at hx
    · left
      assumption
    · simp at hx
  · intro e he
    simp only [List.mem_singleton] at he
    subst he
    simp [alookup]
  · intro x gx hx
    simp only [alookup] at hx
    split at hx
    · obtain rfl : gx = 0 := by simpa using hx.symm
      simp
    · simp at hx

/-! ## Pathfinding claims -/

theorem isRelaxedPath_goal_free (m : Maze) (s t : Cell) (p : List Cell)
    (h : isRelaxedPath m s t p = true) (hne : s ≠ t) : m.freeCell t = true := by
  match p with
  | [] => simp [isRelaxedPath] at h
  | c :: rest =>
    simp only [isRelaxedPath, Bool.and_eq_true, decide_eq_true_eq] at h
    obtain ⟨⟨hcs, hlast⟩, hsteps⟩ := h
    subst hcs
    cases rest with
    | nil => exact absurd (by simpa [lastOf] using hlast) hne
    | cons c2 rest2 =>
      have hfree := stepsOk_last_free m rest2 c c2 hsteps
      rw [show lastOf c (c2 :: rest2) = t from hlast] at hfree
      exact hfree

/-- Claim C2 (amended): `find_path(start, goal)` returns `None` whenever
no 4-connected path from `start` to `goal` exists in which every cell
after the first is in bounds and obstacle-free; in particular it returns
`None` whenever the goal is an obstacle cell or out of bounds, provided
`goal ≠ start`.  (The start cell itself is never validated — see the
counterexample `find_path_obstacle_start`.) -/
theorem find_path_none_of_no_path (m : Maze) (s t : Cell)
    (h : (¬ ∃ p, isRelaxedPath m s t p = true) ∨ (s ≠ t ∧ m.freeCell t = false)) :
    find_path m s t = none := by
  cases hfp : find_path m s t with
  | none => rfl
  | some p =>
    have hv := find_path_sound m s t p hfp
    rcases h with h | ⟨hne, hblk⟩
    · exact absurd ⟨p, hv⟩ h
    · rw [isRelaxedPath_goal_free m s t p hv hne] at hblk
      exact absurd hblk (by decide)

/-- Witness for C2 at a concrete input: on a 2×2 grid whose cell `(0,1)`
is an obstacle, `find_path (0,0) (0,1)` returns `None`. -/
theorem find_path_none_of_no_path_witness :
    find_path (mkMaze 2 [(0, 1)]) (0, 0) (0, 1) = none :=
  find_path_none_of_no_path (mkMaze 2 [(0, 1)]) (0, 0) (0, 1)
    (Or.inr ⟨by decide, by decide⟩)

/-- Counterexample to C2 as stated: `(0,0)` is an obstacle of `mazeC`,
yet `find_path (0,0) (0,1)` returns a path rather than `None` — the
start cell is never validated. -/
theorem find_path_obstacle_start :
    mazeC.blocked (0, 0) = true ∧
    find_path mazeC (0, 0) (0, 1) = some [(0, 0), (0, 1)] := by decide

/-- Claim C1 (code bug, failing input): on `mazeA`, `find_path` from
`(3,0)` to `(2,4)` returns the 8-cell path `longPathA` (7 moves), while
`shortPathA` is a valid 6-cell path (5 moves) between the same cells, so
the returned path is not a shortest one.  The cause: when a cell already
on the open frontier gets a better `g` (line 220), the source never
re-pushes it (line 225), so the cell keeps its stale, too-high heap
priority and is expanded too late. -/
theorem find_path_not_optimal :
    find_path mazeA (3, 0) (2, 4) = some longPathA ∧
    longPathA.length = 8 ∧
    isRelaxedPath mazeA (3, 0) (2, 4) shortPathA = true ∧
    shortPathA.length = 6 := by decide

/-- Claim C10: for every cell `c` — in or out of bounds, obstacle or
free — `find_path(c, c)` returns the one-element path `[c]`: the start
is pushed unconditionally and popped immediately, and the goal test
fires before any validation. -/
theorem find_path_self (m : Maze) (c : Cell) : find_path m c c = some [c] := by
  unfold find_path
  rw [show m.gridSize * m.gridSize + 2 = (m.gridSize * m.gridSize + 1) + 1 from rfl]
  simp [loop, popMin, popMinGo, rebuild, alookup, manhattan_self]

/-! ## Tick claims -/

theorem runRobots_none (m : Maze) (ipos : Cell) :
    ∀ (l acc : List (Cell × Nat)),
      (l.any fun r => capturesB m ipos r.1) = true →
      runRobots m ipos acc l = none := by
  intro l
  induction l with
  | nil =>
    intro acc h
    simp at h
  | cons r rest ih =>
    intro acc h
    obtain ⟨p, num⟩ := r
    rw [List.any_cons] at h
    simp only [runRobots]
    cases hfp : find_path m p ipos with
    | none =>
      have hcap : capturesB m ipos p = false := by simp [capturesB, hfp]
      rw [hcap, Bool.false_or] at h
      show runRobots m ipos (dictInsert acc p num) rest = none
      exact ih _ h
    | some path =>
      cases path with
      | nil =>
        have hcap : capturesB m ipos p = false := by simp [capturesB, hfp]
        rw [hcap, Bool.false_or] at h
        show runRobots m ipos (dictInsert acc p num) rest = none
        exact ih _ h
      | cons a tl =>
        cases tl with
        | nil =>
          have hcap : capturesB m ipos p = false := by simp [capturesB, hfp]
          rw [hcap, Bool.false_or] at h
          show runRobots m ipos (dictInsert acc p num) rest = none
          exact ih _ h
        | cons b tl2 =>
          show (if b = ipos then none
                else runRobots m ipos (dictInsert acc b num) rest) = none
          by_cases hb : b = ipos
          · rw [if_pos hb]
          · rw [if_neg hb]
            have hcap : capturesB m ipos p = false := by
              simp [capturesB, hfp, hb]
            rw [hcap, Bool.false_or] at h
            exact ih _ h

theorem runRobots_snapshot (m : Maze) (ipos : Cell) :
    ∀ (l acc : List (Cell × Nat)),
      (l.any fun r => capturesB m ipos r.1) = false →
      runRobots m ipos acc l =
        some (l.foldl (fun d r => dictInsert d (nextPos m ipos r.1) r.2) acc) := by
  intro l
  induction l with
  | nil =>
    intro acc _
    rfl
  | cons r rest ih =>
    intro acc h
    obtain ⟨p, num⟩ := r
    rw [List.any_cons, Bool.or_eq_false_iff] at h
    simp only [runRobots, List.foldl_cons]
    cases hfp : find_path m p ipos with
    | none =>
      have hnext : nextPos m ipos p = p := by simp [nextPos, hfp]
      rw [hnext]
      show runRobots m ipos (dictInsert acc p num) rest = _
      exact ih _ h.2
    | some path =>
      cases path with
      | nil =>
        have hnext : nextPos m ipos p = p := by simp [nextPos, hfp]
        rw [hnext]
        show runRobots m ipos (dictInsert acc p num) rest = _
        exact ih _ h.2
      | cons a tl =>
        cases tl with
        | nil =>
          have hnext : nextPos m ipos p = p := by simp [nextPos, hfp]
          rw [hnext]
          show runRobots m ipos (dictInsert acc p num) rest = _
          exact ih _ h.2
        | cons b tl2 =>
          have hb : ¬(b = ipos) := by
            have := h.1
            simp [capturesB, hfp] at this
            exact this
          show (if b = ipos then none
                else runRobots m ipos (dictInsert acc b num) rest) =
            some (rest.foldl (fun d r => dictInsert d (nextPos m ipos r.1) r.2)
              (dictInsert acc (nextPos m ipos p) num))
          rw [if_neg hb]
          have hnext : nextPos m ipos p = b := by simp [nextPos, hfp]
          rw [hnext]
          exact ih _ h.2

theorem snapshotTick_eq_foldl (m : Maze) (ipos : Cell) (robots : List (Cell × Nat)) :
    snapshotTick m ipos robots =
      robots.foldl (fun d r => dictInsert d (nextPos m ipos r.1) r.2) [] := by
  simp [snapshotTick, List.foldl_map]

/-- Dispatch of `update_game` for a running state with a placed
intruder. -/
theorem update_game_eq (s : GameState) (ipos : Cell)
    (hrun : s.gameRunning = true) (hint : s.intruder = some ipos) :
    update_game s =
      match runRobots s.maze ipos [] s.robots with
      | none => game_over s
      | some newRobots => { s with robots := newRobots } := by
  unfold update_game
  rw [if_neg (by simp [hrun])]
  split
  · rename_i hnone
    rw [hint] at hnone
    simp at hnone
  · rename_i ipos2 hsome
    rw [hint] at hsome
    obtain rfl : ipos2 = ipos := by simpa using hsome.symm
    rfl

/-- Claim C3: in a capture-free tick of `update_game`, the post-tick
robot dict is exactly the one obtained by mapping each robot of the
pre-tick snapshot to its `nextPos` — a function of the pre-tick maze,
intruder position and that robot's own position only — and inserting the
images in iteration order: robots never see each other's moves within
the tick.  `nextPos` is the path's second cell when the robot's path has
length ≥ 2, and the robot's unchanged position otherwise. -/
theorem update_game_simultaneous (s : GameState) (ipos : Cell)
    (hrun : s.gameRunning = true) (hint : s.intruder = some ipos)
    (hnc : (s.robots.any fun r => capturesB s.maze ipos r.1) = false) :
    update_game s = { s with robots := snapshotTick s.maze ipos s.robots } := by
  rw [update_game_eq s ipos hrun hint,
    runRobots_snapshot s.maze ipos s.robots [] hnc, snapshotTick_eq_foldl]

/-- Witness for C3 at a concrete input: one capture-free tick of the
3×3 game `stateB` yields exactly the snapshot-mapped robot dict. -/
theorem update_game_simultaneous_witness :
    update_game stateB = { stateB with robots := snapshotTick stateB.maze (2, 1) stateB.robots } :=
  update_game_simultaneous stateB (2, 1) rfl rfl (by decide)

/-- Claim C4 (code bug, failing input): in `stateB` both robots' computed
next cells are `(0,1)` and no robot captures, yet after the tick the
position-keyed dict `new_robots` holds a single entry `((0,1), 2)` — the
robot with id 1 has vanished and the robot count drops from 2 to 1,
contradicting robot preservation under co-occupancy. -/
theorem update_game_drops_colliding_robot :
    (stateB.robots.any fun r => capturesB stateB.maze (2, 1) r.1) = false ∧
    nextPos stateB.maze (2, 1) (0, 0) = (0, 1) ∧
    nextPos stateB.maze (2, 1) (0, 2) = (0, 1) ∧
    stateB.robots.length = 2 ∧
    (update_game stateB).robots = [((0, 1), 2)] ∧
    (update_game stateB).robots.length = 1 := by decide

/-! ## Score claims -/

theorem update_leaderboard_sorted (stored : List Int) (steps : Nat) :
    List.Sorted (· ≥ ·) (update_leaderboard stored steps) :=
  List.Pairwise.sublist (List.take_sublist _ _)
    (List.sorted_insertionSort (· ≥ ·) (stored ++ [(steps : Int)]))

theorem update_leaderboard_length (stored : List Int) (steps : Nat) :
    (update_leaderboard stored steps).length ≤ 5 :=
  List.length_take_le _ _

theorem game_over_eq (s : GameState) :
    game_over s =
      { s with
        gameRunning := false,
        status := Status.gameover,
        highScore := (if s.highScore < s.steps then s.steps else s.highScore),
        storedHighScore := (if s.highScore < s.steps then s.steps else s.storedHighScore),
        storedLeaderboard := update_leaderboard s.storedLeaderboard s.steps,
        leaderboard := update_leaderboard s.storedLeaderboard s.steps } := by
  simp only [game_over, update_high_score]
  by_cases h : s.highScore < s.steps
  · simp only [if_pos h]
  · simp only [if_neg h]

/-- Counterexample to C5 as stated: the intruder may legally step onto a
robot's cell (the move handler checks bounds and obstacles only, never
robots), after which that robot's computed next cell equals the
intruder's cell (its path to the intruder is the trivial `[p]`, so it
keeps its position); yet the tick takes the `else` branch of line 240,
the line-244 capture test never runs, and the game keeps running instead
of transitioning to game over. -/
theorem update_game_no_capture_when_colocated :
    stateK.gameRunning = true ∧
    (tryMove stateK Dir.left).intruder = some (0, 0) ∧
    (tryMove stateK Dir.left).gameRunning = true ∧
    (tryMove stateK Dir.left).robots = [((0, 0), 1)] ∧
    nextPos (tryMove stateK Dir.left).maze (0, 0) (0, 0) = (0, 0) ∧
    (update_game (tryMove stateK Dir.left)).gameRunning = true ∧
    (update_game (tryMove stateK Dir.left)).status = Status.running := by decide

/-- Claim C5 (amended): in a tick of `update_game` with the game
running, if some robot's path to the intruder has length ≥ 2 and its
second cell — the computed next cell of a robot that actually moves — is
the intruder's cell, then the tick runs `game_over`: the game stops
(`game_running = False`, `game_status = "gameover"`), the stored high
score is rewritten to the step count exactly when the step count exceeds
it, and the stored leaderboard becomes the old stored list with the step
count appended, sorted descending and capped at 5 — hence sorted
descending with at most 5 entries.  (A robot already co-located with the
intruder has a trivial path, stays put, and fires no capture — see the
counterexample above.) -/
theorem update_game_capture (s : GameState) (ipos : Cell)
    (hrun : s.gameRunning = true) (hint : s.intruder = some ipos)
    (hhs : s.storedHighScore = s.highScore)
    (hcap : (s.robots.any fun r => capturesB s.maze ipos r.1) = true) :
    (update_game s).gameRunning = false ∧
    (update_game s).status = Status.gameover ∧
    (update_game s).storedHighScore =
      (if s.storedHighScore < s.steps then s.steps else s.storedHighScore) ∧
    (update_game s).storedLeaderboard =
      (List.insertionSort (· ≥ ·) (s.storedLeaderboard ++ [(s.steps : Int)])).take 5 ∧
    List.Sorted (· ≥ ·) (update_game s).storedLeaderboard ∧
    (update_game s).storedLeaderboard.length ≤ 5 := by
  have hgo : update_game s = game_over s := by
    rw [update_game_eq s ipos hrun hint, runRobots_none s.maze ipos s.robots [] hcap]
  rw [hgo, game_over_eq]
  refine ⟨rfl, rfl, ?_, rfl, update_leaderboard_sorted _ _, update_leaderboard_length _ _⟩
  show (if s.highScore < s.steps then s.steps else s.storedHighScore) =
    if s.storedHighScore < s.steps then s.steps else s.storedHighScore
  rw [hhs]

/-- Witness for C5 at a concrete input: in `stateW` the robot at `(0,1)`
captures the intruder at `(0,0)`; the tick ends the game, raises the
stored high score from 5 to the 7 steps played, and stores the
leaderboard `[7, 3]`. -/
theorem update_game_capture_witness :
    (update_game stateW).gameRunning = false ∧
    (update_game stateW).status = Status.gameover ∧
    (update_game stateW).storedHighScore =
      (if stateW.storedHighScore < stateW.steps then stateW.steps else stateW.storedHighScore) ∧
    (update_game stateW).storedLeaderboard =
      (List.insertionSort (· ≥ ·) (stateW.storedLeaderboard ++ [(stateW.steps : Int)])).take 5 ∧
    List.Sorted (· ≥ ·) (update_game stateW).storedLeaderboard ∧
    (update_game stateW).storedLeaderboard.length ≤ 5 :=
  update_game_capture stateW (0, 0) rfl rfl rfl (by decide)

/-- Counterexample to C6 as stated: the program accumulates the speed in
binary64 floats (`robot_speed += 0.1`, line 475), so after 250 accepted
moves the speed is not the exact decimal `1.2 = 1.0 + 0.1 * 2`: the
second increment rounds up by one ulp (the program prints
`1.2000000000000002`). -/
theorem progressStep_iterate (n : Nat) :
    progressStep^[n] (0, ROBOT_SPEED_INITIAL) =
      (n, (fun v => floatAdd v ROBOT_SPEED_INCREASE)^[n / ROBOT_SPEED_INCREASE_STEPS]
        ROBOT_SPEED_INITIAL) := by
  induction n with
  | zero => simp
  | succ n ih =>
    rw [Function.iterate_succ_apply', ih]
    simp only [progressStep, ROBOT_SPEED_INCREASE_STEPS]
    by_cases h : (n + 1) % 100 = 0
    · have hdiv : (n + 1) / 100 = n / 100 + 1 := by omega
      rw [if_pos ⟨Nat.succ_pos n, h⟩, hdiv, Function.iterate_succ_apply']
    · have hdiv : (n + 1) / 100 = n / 100 := by omega
      rw [if_neg (by simp [h]), hdiv]

theorem rne_round_up (q : ℚ) (n : ℤ) (h1 : ⌊q⌋ = n) (h2 : 1 / 2 < q - (n : ℚ)) :
    rne q = n + 1 := by
  unfold rne
  rw [h1, if_pos h2]

theorem floatRound_unit (q : ℚ) (h1 : ⌊q⌋ = 1) :
    floatRound q = (rne (q * 2 ^ 52) : ℚ) / 2 ^ 52 := by
  unfold floatRound
  rw [h1]
  norm_num [Nat.log2]

theorem speedAfterOne :
    floatAdd ROBOT_SPEED_INITIAL ROBOT_SPEED_INCREASE = 2476979795053773 / 2 ^ 51 := by
  have hsum : ROBOT_SPEED_INITIAL + ROBOT_SPEED_INCREASE = 39631676720860365 / 2 ^ 55 := by
    norm_num [ROBOT_SPEED_INITIAL, ROBOT_SPEED_INCREASE]
  show floatRound (ROBOT_SPEED_INITIAL + ROBOT_SPEED_INCREASE) = _
  rw [hsum, floatRound_unit _ (by norm_num)]
  rw [show ((39631676720860365 : ℚ) / 2 ^ 55 * 2 ^ 52) = 39631676720860365 / 8 from by norm_num]
  rw [rne_round_up _ 4953959590107545 (by norm_num) (by norm_num)]
  norm_num

theorem speedAfterTwo :
    floatAdd (2476979795053773 / 2 ^ 51) ROBOT_SPEED_INCREASE = 1351079888211149 / 2 ^ 50 := by
  have hsum : (2476979795053773 / 2 ^ 51 : ℚ) + ROBOT_SPEED_INCREASE =
      43234556422756765 / 2 ^ 55 := by
    norm_num [ROBOT_SPEED_INCREASE]
  show floatRound ((2476979795053773 / 2 ^ 51 : ℚ) + ROBOT_SPEED_INCREASE) = _
  rw [hsum, floatRound_unit _ (by norm_num)]
  rw [show ((43234556422756765 : ℚ) / 2 ^ 55 * 2 ^ 52) = 43234556422756765 / 8 from by norm_num]
  rw [rne_round_up _ 5404319552844595 (by norm_num) (by norm_num)]
  norm_num

theorem speed_after_250_not_exact :
    (progressStep^[250] (0, ROBOT_SPEED_INITIAL)).2 ≠ 6 / 5 := by
  rw [progressStep_iterate]
  show floatAdd (floatAdd ROBOT_SPEED_INITIAL ROBOT_SPEED_INCREASE) ROBOT_SPEED_INCREASE ≠ 6 / 5
  rw [speedAfterOne, speedAfterTwo]
  norm_num

/-- Claim C6 (amended): starting from a fresh start (`start_game` resets
`steps = 0` and `robot_speed = 1.0`), after `n` accepted player moves
the speed is the binary64 value obtained by adding the double nearest
0.1 to 1.0, `n / 100` times (integer division), each addition rounded to
nearest-even; in particular after exactly 100 accepted moves the speed
is the double nearest 1.1 (displayed as `1.1`), and after 250 accepted
moves it is `1351079888211149 / 2^50` (displayed as
`1.2000000000000002`), strictly greater than 1.2. -/
theorem speed_progression :
    (∀ n : Nat, progressStep^[n] (0, ROBOT_SPEED_INITIAL) =
      (n, (fun v => floatAdd v ROBOT_SPEED_INCREASE)^[n / ROBOT_SPEED_INCREASE_STEPS]
        ROBOT_SPEED_INITIAL)) ∧
    (progressStep^[100] (0, ROBOT_SPEED_INITIAL)).2 = floatRound (11 / 10) ∧
    (progressStep^[100] (0, ROBOT_SPEED_INITIAL)).2 = 2476979795053773 / 2 ^ 51 ∧
    (progressStep^[250] (0, ROBOT_SPEED_INITIAL)).2 = 1351079888211149 / 2 ^ 50 ∧
    6 / 5 < (progressStep^[250] (0, ROBOT_SPEED_INITIAL)).2 := by
  refine ⟨progressStep_iterate, ?_, ?_, ?_, ?_⟩
  · rw [progressStep_iterate]
    show floatAdd ROBOT_SPEED_INITIAL ROBOT_SPEED_INCREASE = floatRound (11 / 10)
    rw [speedAfterOne, floatRound_unit _ (by norm_num)]
    rw [show ((11 : ℚ) / 10 * 2 ^ 52) = 49539595901075456 / 10 from by norm_num]
    rw [rne_round_up _ 4953959590107545 (by norm_num) (by norm_num)]
    norm_num
  · rw [progressStep_iterate]
    show floatAdd ROBOT_SPEED_INITIAL ROBOT_SPEED_INCREASE = 2476979795053773 / 2 ^ 51
    exact speedAfterOne
  · rw [progressStep_iterate]
    show floatAdd (floatAdd ROBOT_SPEED_INITIAL ROBOT_SPEED_INCREASE) ROBOT_SPEED_INCREASE =
      1351079888211149 / 2 ^ 50
    rw [speedAfterOne, speedAfterTwo]
  · rw [progressStep_iterate]
    show (6 : ℚ) / 5 <
      floatAdd (floatAdd ROBOT_SPEED_INITIAL ROBOT_SPEED_INCREASE) ROBOT_SPEED_INCREASE
    rw [speedAfterOne, speedAfterTwo]
    norm_num

/-- Claim C7: while the game is running, an arrow-key move whose target
cell is out of bounds or an obstacle changes nothing at all: the whole
game state (intruder position, step count, robot speed and every other
field) is returned unchanged, and no error is raised (`tryMove` is a
total function). -/
theorem tryMove_blocked (s : GameState) (d : Dir) (pos : Cell)
    (hrun : s.gameRunning = true) (hint : s.intruder = some pos)
    (hblk : s.maze.freeCell (pos.1 + (dirDelta d).1, pos.2 + (dirDelta d).2) = false) :
    tryMove s d = s := by
  unfold tryMove
  rw [if_neg (by simp [hrun])]
  split
  · rfl
  · rename_i pos2 hsome
    rw [hint] at hsome
    obtain rfl : pos2 = pos := by simpa using hsome.symm
    rw [if_neg (by simp [hblk])]

/-- Witness for C7 at a concrete input: in `stateM` (running, intruder
at `(0,0)`, obstacle at `(0,1)`), a RIGHT move targets the obstacle and
leaves the state unchanged. -/
theorem tryMove_blocked_witness :
    stateM.gameRunning = true ∧
    stateM.maze.freeCell (0 + (dirDelta Dir.right).1, 0 + (dirDelta Dir.right).2) = false ∧
    tryMove stateM Dir.right = stateM :=
  ⟨rfl, by decide, tryMove_blocked stateM Dir.right (0, 0) rfl rfl (by decide)⟩

/-- Claim C8: inserting the scores 50, 10, 90, 30, 70, 20 one at a time
through `update_leaderboard` starting from an empty stored list yields
`[90, 70, 50, 30, 20]`; and every list `update_leaderboard` stores and
returns is sorted descending with at most 5 entries. -/
theorem update_leaderboard_spec :
    List.foldl (fun acc n => update_leaderboard acc n) []
      [50, 10, 90, 30, 70, 20] = [90, 70, 50, 30, 20] ∧
    ∀ (stored : List Int) (steps : Nat),
      List.Sorted (· ≥ ·) (update_leaderboard stored steps) ∧
      (update_leaderboard stored steps).length ≤ 5 :=
  ⟨by decide, fun stored steps =>
    ⟨update_leaderboard_sorted stored steps, update_leaderboard_length stored steps⟩⟩

/-- Counterexample to C9 as stated: in `stateG` the game status is
`"gameover"`, not `"setup"`, yet a grid click still moves the intruder —
the source gates placement on `not game_running` (line 429), which also
holds in the game-over state. -/
theorem placeIntruder_in_gameover :
    stateG.status = Status.gameover ∧
    stateG.status ≠ Status.setup ∧
    (placeIntruderClick stateG (1, 1)).intruder = some (1, 1) ∧
    stateG.intruder ≠ some (1, 1) := by decide

/-- Claim C9 (amended): an intruder-placement click is honoured exactly
when the game is not running (which holds in the SETUP state and also in
the GAME_OVER state) and the target cell is in bounds, obstacle-free and
robot-free; in every other case the click is silently ignored and the
state — in particular the intruder position — is unchanged. -/
theorem placeIntruderClick_spec (s : GameState) (c : Cell) :
    (s.gameRunning = false ∧ placeAllowed s c = true →
      placeIntruderClick s c = { s with intruder := some c }) ∧
    (s.gameRunning = true ∨ placeAllowed s c = false →
      placeIntruderClick s c = s) := by
  constructor
  · rintro ⟨hrun, hok⟩
    unfold placeIntruderClick
    rw [if_neg (by simp [hrun]), if_pos hok]
  · intro h
    unfold placeIntruderClick
    rcases h with h | h
    · rw [if_pos h]
    · by_cases hrun : s.gameRunning = true
      · rw [if_pos hrun]
      · rw [if_neg hrun, if_neg (by simp [h])]

/-- Witness for C9 at a concrete input: in `stateG` (not running) the
click on the free, robot-free cell `(1,1)` is honoured. -/
theorem placeIntruderClick_spec_witness :
    placeIntruderClick stateG (1, 1) = { stateG with intruder := some (1, 1) } :=
  (placeIntruderClick_spec stateG (1, 1)).1 ⟨rfl, by decide⟩

end IntruderEscape
